import Mathlib

/-!
Verification of the HPC-Project-1 n-body simulator against its specification.

The C sources are shallowly embedded: `double` arithmetic is modelled by ℝ
(ideal real arithmetic; floating-point rounding is an explicit tolerance in
the spec, not part of the contracts checked here), `size_t` by ℕ with
explicit wrap-around where the C code converts from `int`, and the flat
`double*` arrays (`position`, `velocity`, `fx/fy/fz`, the output matrix)
by functions `ℕ → ℝ` updated pointwise, mirroring each loop of the source
as a fold in the same iteration order.
-/

namespace NBody

/-- Softening factor `SOFTENING 1e-9` from the sources. -/
noncomputable def SOFTENING : ℝ := 1 / 10 ^ 9

/-- Gravitational constant `G 6.6743015e-11` from the sources. -/
noncomputable def G : ℝ := 66743015 / 10 ^ 18

/-- Pointwise update of a flat array, modelling `a[k] = v`. -/
def upd {α : Type} (f : ℕ → α) (k : ℕ) (v : α) : ℕ → α :=
  fun x => if x = k then v else f x

/-- The pointer `&position[3*i]` into a flat body array: offset view. -/
def bodyPtr (pos : ℕ → ℝ) (i : ℕ) : ℕ → ℝ := fun c => pos (3 * i + c)

/-- `euclidean_distance_sans_sqrt` (helper_functions.h): squared Euclidean
distance of two body positions plus the softening term. -/
noncomputable def euclidean_distance_sans_sqrt (p q : ℕ → ℝ) : ℝ :=
  (p 0 - q 0) * (p 0 - q 0) + (p 1 - q 1) * (p 1 - q 1) +
    (p 2 - q 2) * (p 2 - q 2) + SOFTENING

/-- `gravitation` (helper_functions.h variant taking a precomputed softened
squared distance): `G * ((m1 * m2) / distance)`.  The two position pointers
are parameters of the C function but are not used by its body. -/
noncomputable def gravitation (m1 m2 : ℝ) (_p _q : ℕ → ℝ) (distance : ℝ) : ℝ :=
  G * (m1 * m2 / distance)

/-- One pairwise force contribution on axis `c` (0 = x, 1 = y, 2 = z) added to
body `i` due to body `j`, as computed in the force loops of nbody-p3.c and
nbody-s.c:  `accel * (position[3*j+c] - position[3*i+c])` with
`accel = force / sqrt(distance)`. -/
noncomputable def contrib (mass pos : ℕ → ℝ) (c i j : ℕ) : ℝ :=
  let distance := euclidean_distance_sans_sqrt (bodyPtr pos i) (bodyPtr pos j)
  let force := gravitation (mass i) (mass j) (bodyPtr pos i) (bodyPtr pos j) distance
  let accel := force / Real.sqrt distance
  accel * (pos (3 * j + c) - pos (3 * i + c))

/-- The body of the nbody-p3.c pair iteration `(i, j)` on axis `c`:
`fx[i] += accel * d;  fx[j] -= accel * d`. -/
noncomputable def pairUpdate (mass pos : ℕ → ℝ) (c i j : ℕ) (f : ℕ → ℝ) : ℕ → ℝ :=
  let f1 := upd f i (f i + contrib mass pos c i j)
  upd f1 j (f1 j - contrib mass pos c i j)

/-- The inner `j` loop of nbody-p3.c's force phase for a fixed outer index
`i`: `for (j = 0; j < n; j++) { if (j >= i) continue; ... }`. -/
noncomputable def innerLoop (mass pos : ℕ → ℝ) (n c i : ℕ) (f : ℕ → ℝ) : ℕ → ℝ :=
  (List.range n).foldl (fun g j => if j < i then pairUpdate mass pos c i j g else g) f

/-- The force phase of nbody-p3.c on axis `c`, run over an arbitrary list of
outer iterations `is` (the iterations assigned to one thread), starting from
a zeroed accumulator (`memset(fx, 0, ...)`). -/
noncomputable def forcePhaseList (mass pos : ℕ → ℝ) (n c : ℕ) (is : List ℕ) : ℕ → ℝ :=
  is.foldl (fun f i => innerLoop mass pos n c i f) (fun _ => 0)

/-- The full (single-thread) force phase of nbody-p3.c on axis `c`. -/
noncomputable def forcePhase (mass pos : ℕ → ℝ) (n c : ℕ) : ℕ → ℝ :=
  forcePhaseList mass pos n c (List.range n)

/-- Net change that outer iteration `i` of the force phase makes to
accumulator slot `k` (used to characterize the folds): `+` the contributions
of all its pairs when `k = i`, `-` one contribution when `k` is a partner
`j < i`. -/
noncomputable def iterDelta (mass pos : ℕ → ℝ) (n c i k : ℕ) : ℝ :=
  (if k = i then ∑ j ∈ Finset.range (min i n), contrib mass pos c i j else 0) +
    (if k < i ∧ k < n then -contrib mass pos c i k else 0)

/-- Specification-side net force on axis `c` for body `i`: the exact sum of
the pairwise contributions from all other bodies `j ≠ i`. -/
noncomputable def netForce (mass pos : ℕ → ℝ) (n c i : ℕ) : ℝ :=
  ∑ j ∈ (Finset.range n).erase i, contrib mass pos c i j

/-- Body state: flat position and velocity arrays, body `i` occupying slots
`3*i`, `3*i+1`, `3*i+2`. -/
structure SimState where
  pos : ℕ → ℝ
  vel : ℕ → ℝ

/-- The per-body integration of nbody-p3.c / nbody-s.c, reading the three
axis forces for body `i` from `F`:
`velocity[3i+c] += (F_c[i]/mass[i]) * dt;  position[3i+c] += velocity[3i+c] * dt`
(`get_acceleration(f, m) = f / m`). -/
noncomputable def bodyIntegrate (mass : ℕ → ℝ) (dt : ℝ) (F : ℕ → ℕ → ℝ) (i : ℕ)
    (s : SimState) : SimState :=
  let v0 := upd s.vel (3 * i) (s.vel (3 * i) + F 0 i / mass i * dt)
  let v1 := upd v0 (3 * i + 1) (v0 (3 * i + 1) + F 1 i / mass i * dt)
  let v2 := upd v1 (3 * i + 2) (v1 (3 * i + 2) + F 2 i / mass i * dt)
  let p0 := upd s.pos (3 * i) (s.pos (3 * i) + v2 (3 * i) * dt)
  let p1 := upd p0 (3 * i + 1) (p0 (3 * i + 1) + v2 (3 * i + 1) * dt)
  let p2 := upd p1 (3 * i + 2) (p1 (3 * i + 2) + v2 (3 * i + 2) * dt)
  ⟨p2, v2⟩

/-- The integration loop of nbody-p3.c: `for (i = 0; i < n; i++)` updating
velocity then position of body `i`, with forces read from `F`. -/
noncomputable def integPhase (mass : ℕ → ℝ) (dt : ℝ) (F : ℕ → ℕ → ℝ) (n : ℕ)
    (s : SimState) : SimState :=
  (List.range n).foldl (fun t i => bodyIntegrate mass dt F i t) s

/-- One time step of nbody-p3.c under single-thread semantics: force phase
over all outer iterations into one accumulator, then the integration loop.
All forces are computed from the positions `s.pos` held at the start of the
step. -/
noncomputable def p3Step (mass : ℕ → ℝ) (dt : ℝ) (n : ℕ) (s : SimState) : SimState :=
  integPhase mass dt (fun c i => forcePhase mass s.pos n c i) n s

/-- Specification-side step (§4.2 of the spec): semi-implicit Euler where
every body's velocity update uses the exact pairwise net force computed from
start-of-step positions, and the position update uses the already advanced
velocity of the same step. -/
noncomputable def specStep (mass : ℕ → ℝ) (dt : ℝ) (n : ℕ) (s : SimState) : SimState :=
  let newVel : ℕ → ℝ := fun k =>
    if k / 3 < n then s.vel k + netForce mass s.pos n (k % 3) (k / 3) / mass (k / 3) * dt
    else s.vel k
  let newPos : ℕ → ℝ := fun k =>
    if k / 3 < n then s.pos k + newVel k * dt else s.pos k
  ⟨newPos, newVel⟩

/-- The inner force accumulation of nbody-s.c for body `i` on axis `c`:
`x_force = 0; for (j = 0; j < n; j++) { if (i == j) continue; x_force += ... }`. -/
noncomputable def sBodyForce (mass pos : ℕ → ℝ) (n c i : ℕ) : ℝ :=
  (List.range n).foldl (fun acc j => if i = j then acc else acc + contrib mass pos c i j) 0

/-- One time step of nbody-s.c: for each body `i` in order, compute its net
force from the CURRENT state (bodies `< i` already moved this step) and
immediately integrate body `i`. -/
noncomputable def sStep (mass : ℕ → ℝ) (dt : ℝ) (n : ℕ) (s : SimState) : SimState :=
  (List.range n).foldl
    (fun t i => bodyIntegrate mass dt (fun c k => sBodyForce mass t.pos n c k) i t) s

/-- The loop body of `save_position` (3n-stride variant) generalized over the
row base offset: writes `p[3i+c]` to `out[base + 3i + c]` for `i < n`. -/
def savePosAux {α : Type} (out p : ℕ → α) (base n : ℕ) : ℕ → α :=
  (List.range n).foldl
    (fun b i =>
      upd (upd (upd b (base + 3 * i) (p (3 * i)))
            (base + 3 * i + 1) (p (3 * i + 1)))
        (base + 3 * i + 2) (p (3 * i + 2)))
    out

/-- `save_position` (helper_functions.h, 3n-row-stride variant, the intended
behavior per spec §4.4/§9):
`output->data[output_row*3*n + 3*i + c] = position[3*i + c]`. -/
def savePosition {α : Type} (out p : ℕ → α) (output_row n : ℕ) : ℕ → α :=
  savePosAux out p (output_row * 3 * n) n

/-- One iteration of the nbody-p3.c step loop at time index `t`: advance the
state, and if `t % output_steps == 0` save positions to row `t/output_steps`. -/
noncomputable def stepAndRecord (mass : ℕ → ℝ) (dt : ℝ) (n outputSteps : ℕ)
    (sb : SimState × (ℕ → ℝ)) (t : ℕ) : SimState × (ℕ → ℝ) :=
  let s := p3Step mass dt n sb.1
  let b := if t % outputSteps = 0 then savePosition sb.2 s.pos (t / outputSteps) n else sb.2
  (s, b)

/-- The simulation driver of nbody-p3.c after the derived run parameters are
fixed: save row 0, run `t = 1 .. num_steps-1`, then save the final positions
to row `num_outputs-1` only when `num_steps % output_steps != 0`.  `raw` is
the uninitialized output buffer from `matrix_create_raw`. -/
noncomputable def runSim (mass : ℕ → ℝ) (dt : ℝ) (n numSteps outputSteps numOutputs : ℕ)
    (s0 : SimState) (raw : ℕ → ℝ) : SimState × (ℕ → ℝ) :=
  let b0 := savePosition raw s0.pos 0 n
  let r := (List.range' 1 (numSteps - 1)).foldl (stepAndRecord mass dt n outputSteps) (s0, b0)
  let bf := if numSteps % outputSteps ≠ 0 then savePosition r.2 r.1.pos (numOutputs - 1) n
    else r.2
  (r.1, bf)

/-- The outer iterations of the force-phase `omp for` executed by thread
`t` under the iteration-to-thread assignment `sched`. -/
def threadIters (sched : ℕ → ℕ) (n t : ℕ) : List ℕ :=
  (List.range n).filter (fun i => sched i = t)

/-- The thread-private force accumulator of thread `t` after the force-phase
barrier: `fx/fy/fz` are allocated (and zeroed) per thread inside the parallel
region of nbody-p3.c, so thread `t` holds exactly the contributions of the
outer iterations it executed. -/
noncomputable def threadForce (mass pos : ℕ → ℝ) (n : ℕ) (sched : ℕ → ℕ) (t c : ℕ) :
    ℕ → ℝ :=
  forcePhaseList mass pos n c (threadIters sched n t)

/-- The force value the integration `omp for` of nbody-p3.c actually reads
for body `i` on axis `c`: slot `i` of the private accumulator of the thread
`tau i` that executes integration iteration `i`. -/
noncomputable def usedForce (mass pos : ℕ → ℝ) (n : ℕ) (sched tau : ℕ → ℕ) (c i : ℕ) : ℝ :=
  threadForce mass pos n sched (tau i) c i

/-- One multithreaded time step of nbody-p3.c: force iterations distributed
by `sched` into thread-private accumulators, integration iterations
distributed by `tau`, each reading its own thread's private forces. -/
noncomputable def parStep (mass : ℕ → ℝ) (dt : ℝ) (n : ℕ) (sched tau : ℕ → ℕ)
    (s : SimState) : SimState :=
  integPhase mass dt (fun c i => usedForce mass s.pos n sched tau c i) n s

/-- Total momentum on axis `c`: `Σ mass[i] * velocity[3i+c]`. -/
noncomputable def totMomentum (mass vel : ℕ → ℝ) (n c : ℕ) : ℝ :=
  ∑ i ∈ Finset.range n, mass i * vel (3 * i + c)

/-- True squared Euclidean distance of two body positions (no softening);
the spec's `dist(i,j)` is its square root. -/
noncomputable def distSq (p q : ℕ → ℝ) : ℝ :=
  (p 0 - q 0) ^ 2 + (p 1 - q 1) ^ 2 + (p 2 - q 2) ^ 2

/-- The force contribution exactly as claim C6 words it: magnitude
`G*m_i*m_j/(dist² + ε)` times the unit vector `(pos_j - pos_i)/dist`, with
`dist` the true Euclidean distance. -/
noncomputable def claimForceComp (mass pos : ℕ → ℝ) (c i j : ℕ) : ℝ :=
  G * (mass i * mass j) / (distSq (bodyPtr pos i) (bodyPtr pos j) + SOFTENING) *
    ((pos (3 * j + c) - pos (3 * i + c)) /
      Real.sqrt (distSq (bodyPtr pos i) (bodyPtr pos j)))

/-- `num_steps = (size_t)(total_time / time_step + 0.5)` (truncation of a
nonnegative value = floor). -/
def numStepsOf (ts tt : ℚ) : ℕ := (⌊tt / ts + 1 / 2⌋).toNat

/-- `if (num_steps < num_outputs) { num_outputs = 1; }` of the sources. -/
def clampOutputs (numSteps req : ℕ) : ℕ := if numSteps < req then 1 else req

/-- `output_steps = num_steps / num_outputs` (C integer division). -/
def outputStepsOf (numSteps no : ℕ) : ℕ := numSteps / no

/-- `num_outputs = (num_steps + output_steps - 1) / output_steps`. -/
def finalOutputs (numSteps os : ℕ) : ℕ := (numSteps + os - 1) / os

/-- Specification-side `output_steps = floor(num_steps / num_outputs)`
clamped so that `output_steps ≥ 1` (claim C5's wording, with `num_outputs`
the requested outputs-per-body). -/
def specOutputSteps (numSteps req : ℕ) : ℕ := max 1 (numSteps / req)

/-- Conversion of a C `int` value to `size_t` (reduction mod 2^64). -/
def toSizeT (z : ℤ) : ℕ := (z % 2 ^ 64).toNat

/-- Exit-code model of nbody-p3.c `main` up to the start of the simulation:
each validation failure returns 1 in source order; once all checks pass the
run completes and `main` returns 0.  `readRes` is `matrix_from_npy_path`'s
result as `(rows, cols)`, `allocOk` the success of `matrix_create_raw`,
`defaultThreads` the value `get_num_cores_affinity()/2`. -/
def mainExit (argc : ℕ) (ts tt : ℚ) (outputsArg threadsArg : ℤ) (defaultThreads : ℕ)
    (readRes : Option (ℕ × ℕ)) (allocOk : Bool) : ℕ :=
  if argc ≠ 6 ∧ argc ≠ 7 then 1
  else if ts ≤ 0 ∨ tt ≤ 0 ∨ tt < ts then 1
  else if toSizeT outputsArg = 0 then 1
  else if (if argc = 7 then toSizeT threadsArg else defaultThreads) = 0 then 1
  else
    match readRes with
    | none => 1
    | some (rows, cols) =>
      if cols ≠ 7 then 1
      else if rows = 0 then 1
      else if !allocOk then 1
      else 0

/-! ## Concrete test configurations -/

/-- Unit masses. -/
noncomputable def cMass : ℕ → ℝ := fun _ => 1

/-- Two bodies: body 0 at (1,0,0), body 1 at the origin. -/
noncomputable def cPosA : ℕ → ℝ := fun k => if k = 0 then 1 else 0

/-- Body 0 moving with velocity (-10,0,0); body 1 at rest. -/
noncomputable def cVelA : ℕ → ℝ := fun k => if k = 0 then -10 else 0

/-- Two-body state for the nbody-s.c in-place-update counterexample. -/
noncomputable def cStateA : SimState := ⟨cPosA, cVelA⟩

/-- Two bodies: body 0 at the origin, body 1 at (1,0,0). -/
noncomputable def cPosB : ℕ → ℝ := fun k => if k = 3 then 1 else 0

/-- Two bodies at rest, one unit apart. -/
noncomputable def cStateB : SimState := ⟨cPosB, fun _ => 0⟩

/-- A legal dynamic schedule of the force-phase `omp for` with two threads:
outer iteration 1 runs on thread 0, outer iteration 0 on thread 1. -/
def schedB : ℕ → ℕ := fun i => if i = 1 then 0 else 1

/-- A legal dynamic schedule of the integration `omp for` with two threads:
integration iteration `i` runs on thread `i`. -/
def tauB : ℕ → ℕ := fun i => i

/-- One body at the origin moving with unit x-velocity. -/
noncomputable def cStateC : SimState := ⟨fun _ => 0, fun k => if k = 0 then 1 else 0⟩

/-! ## Helper lemmas -/

theorem SOFTENING_pos : (0 : ℝ) < SOFTENING := by
  unfold SOFTENING; norm_num

theorem G_pos : (0 : ℝ) < G := by
  unfold G; norm_num

theorem soft_le_euclid (p q : ℕ → ℝ) : SOFTENING ≤ euclidean_distance_sans_sqrt p q := by
  unfold euclidean_distance_sans_sqrt
  nlinarith [sq_nonneg (p 0 - q 0), sq_nonneg (p 1 - q 1), sq_nonneg (p 2 - q 2)]

theorem euclid_pos (p q : ℕ → ℝ) : 0 < euclidean_distance_sans_sqrt p q :=
  lt_of_lt_of_le SOFTENING_pos (soft_le_euclid p q)

theorem euclid_comm (p q : ℕ → ℝ) :
    euclidean_distance_sans_sqrt q p = euclidean_distance_sans_sqrt p q := by
  unfold euclidean_distance_sans_sqrt; ring

theorem contrib_anti (mass pos : ℕ → ℝ) (c i j : ℕ) :
    contrib mass pos c j i = -contrib mass pos c i j := by
  unfold contrib gravitation
  rw [euclid_comm (bodyPtr pos i) (bodyPtr pos j)]
  ring

theorem list_range_map_sum (n : ℕ) (f : ℕ → ℝ) :
    ((List.range n).map f).sum = ∑ j ∈ Finset.range n, f j := by
  induction n with
  | zero => simp
  | succ m ih => simp [List.range_succ, Finset.sum_range_succ, ih]

theorem upd_self {α : Type} (f : ℕ → α) (k : ℕ) (v : α) : upd f k v k = v := by
  simp [upd]

theorem upd_ne {α : Type} (f : ℕ → α) (k : ℕ) (v : α) {x : ℕ} (h : x ≠ k) :
    upd f k v x = f x := by
  simp [upd, h]

theorem savePosAux_eval {α : Type} (out p : ℕ → α) (base n k : ℕ) :
    savePosAux out p base n k =
      if base ≤ k ∧ k < base + 3 * n then p (k - base) else out k := by
  induction n with
  | zero =>
    unfold savePosAux
    simp only [List.range_zero, List.foldl_nil]
    rw [if_neg (by omega)]
  | succ m ih =>
    have hstep : savePosAux out p base (m + 1) =
        upd (upd (upd (savePosAux out p base m) (base + 3 * m) (p (3 * m)))
              (base + 3 * m + 1) (p (3 * m + 1)))
          (base + 3 * m + 2) (p (3 * m + 2)) := by
      unfold savePosAux
      rw [List.range_succ, List.foldl_append, List.foldl_cons, List.foldl_nil]
    rw [hstep]
    by_cases h2 : k = base + 3 * m + 2
    · subst h2
      rw [upd_self]
      have hc : base ≤ base + 3 * m + 2 ∧ base + 3 * m + 2 < base + 3 * (m + 1) := by omega
      rw [if_pos hc]
      congr 1; omega
    · rw [upd_ne _ _ _ h2]
      by_cases h1 : k = base + 3 * m + 1
      · subst h1
        rw [upd_self]
        have hc : base ≤ base + 3 * m + 1 ∧ base + 3 * m + 1 < base + 3 * (m + 1) := by
          omega
        rw [if_pos hc]
        congr 1; omega
      · rw [upd_ne _ _ _ h1]
        by_cases h0 : k = base + 3 * m
        · subst h0
          rw [upd_self]
          have hc : base ≤ base + 3 * m ∧ base + 3 * m < base + 3 * (m + 1) := by omega
          rw [if_pos hc]
          congr 1; omega
        · rw [upd_ne _ _ _ h0, ih]
          by_cases hin : base ≤ k ∧ k < base + 3 * m
          · have hc : base ≤ k ∧ k < base + 3 * (m + 1) := by omega
            rw [if_pos hin, if_pos hc]
          · have hc : ¬(base ≤ k ∧ k < base + 3 * (m + 1)) := by omega
            rw [if_neg hin, if_neg hc]

theorem pairUpdate_eval (mass pos : ℕ → ℝ) (c i j : ℕ) (f : ℕ → ℝ) (k : ℕ)
    (hij : j ≠ i) :
    pairUpdate mass pos c i j f k =
      f k + (if k = i then contrib mass pos c i j else 0) -
        (if k = j then contrib mass pos c i j else 0) := by
  unfold pairUpdate
  by_cases hkj : k = j
  · subst hkj
    rw [upd_self, upd_ne _ _ _ hij, if_pos rfl, if_neg hij]
    ring
  · rw [upd_ne _ _ _ hkj, if_neg hkj]
    by_cases hki : k = i
    · subst hki
      rw [upd_self, if_pos rfl]
      ring
    · rw [upd_ne _ _ _ hki, if_neg hki]
      ring

theorem innerLoop_eval (mass pos : ℕ → ℝ) (n c i : ℕ) (f : ℕ → ℝ) (k : ℕ) :
    innerLoop mass pos n c i f k = f k + iterDelta mass pos n c i k := by
  induction n with
  | zero =>
    unfold innerLoop iterDelta
    simp only [List.range_zero, List.foldl_nil, Nat.min_zero, Finset.range_zero,
      Finset.sum_empty]
    have h1 : ¬(k < i ∧ k < 0) := by omega
    rw [if_neg h1]
    split_ifs <;> ring
  | succ m ih =>
    have hstep : innerLoop mass pos (m + 1) c i f =
        if m < i then pairUpdate mass pos c i m (innerLoop mass pos m c i f)
        else innerLoop mass pos m c i f := by
      unfold innerLoop
      rw [List.range_succ, List.foldl_append, List.foldl_cons, List.foldl_nil]
    rw [hstep]
    by_cases hmi : m < i
    · rw [if_pos hmi, pairUpdate_eval mass pos c i m _ k (by omega), ih]
      unfold iterDelta
      have e1 : min i (m + 1) = m + 1 := by omega
      have e2 : min i m = m := by omega
      rw [e1, e2, Finset.sum_range_succ]
      by_cases hki : k = i
      · subst hki
        rw [if_pos rfl, if_pos rfl, if_neg (show ¬(k = m) by omega)]
        have h3 : ¬(k < k ∧ k < m) := by omega
        have h4 : ¬(k < k ∧ k < m + 1) := by omega
        rw [if_neg h3, if_neg h4]
        simp only [if_true]
        ring
      · rw [if_neg hki, if_neg hki, if_neg hki]
        by_cases hkm : k = m
        · subst hkm
          have h3 : ¬(k < i ∧ k < k) := by omega
          have h4 : k < i ∧ k < k + 1 := by omega
          rw [if_pos rfl, if_neg h3, if_pos h4]
          ring
        · rw [if_neg hkm]
          by_cases h5 : k < i ∧ k < m
          · rw [if_pos h5, if_pos (show k < i ∧ k < m + 1 by omega)]
            ring
          · rw [if_neg h5, if_neg (show ¬(k < i ∧ k < m + 1) by omega)]
            ring
    · rw [if_neg hmi, ih]
      unfold iterDelta
      have e1 : min i (m + 1) = i := by omega
      have e2 : min i m = i := by omega
      rw [e1, e2]
      by_cases h5 : k < i ∧ k < m
      · rw [if_pos h5, if_pos (show k < i ∧ k < m + 1 by omega)]
      · rw [if_neg h5, if_neg (show ¬(k < i ∧ k < m + 1) by omega)]

theorem foldl_innerLoop_eval (mass pos : ℕ → ℝ) (n c : ℕ) (is : List ℕ) (f : ℕ → ℝ)
    (k : ℕ) :
    (is.foldl (fun g i => innerLoop mass pos n c i g) f) k =
      f k + (is.map (fun i => iterDelta mass pos n c i k)).sum := by
  induction is generalizing f with
  | nil => simp
  | cons a tl ih =>
    rw [List.foldl_cons, List.map_cons, List.sum_cons, ih, innerLoop_eval]
    ring

theorem forcePhaseList_eval (mass pos : ℕ → ℝ) (n c : ℕ) (is : List ℕ) (k : ℕ) :
    forcePhaseList mass pos n c is k =
      (is.map (fun i => iterDelta mass pos n c i k)).sum := by
  unfold forcePhaseList
  rw [foldl_innerLoop_eval]
  simp

/-- After the (single-thread) force phase, accumulator slot `k < n` holds the
exact sum of the pairwise contributions from all other bodies. -/
theorem forcePhase_eq_netForce (mass pos : ℕ → ℝ) (n c k : ℕ) (hk : k < n) :
    forcePhase mass pos n c k = netForce mass pos n c k := by
  unfold forcePhase netForce
  rw [forcePhaseList_eval, list_range_map_sum]
  unfold iterDelta
  rw [Finset.sum_add_distrib]
  have h1 : (∑ i ∈ Finset.range n,
      if k = i then ∑ j ∈ Finset.range (min i n), contrib mass pos c i j else 0) =
      ∑ j ∈ Finset.range k, contrib mass pos c k j := by
    rw [Finset.sum_ite_eq]
    rw [if_pos (Finset.mem_range.mpr hk)]
    rw [show min k n = k by omega]
  have h2 : (∑ i ∈ Finset.range n, if k < i ∧ k < n then -contrib mass pos c i k else 0) =
      ∑ i ∈ (Finset.range n).filter (fun i => k < i), contrib mass pos c k i := by
    rw [Finset.sum_ite, Finset.sum_const_zero, add_zero]
    apply Finset.sum_congr
    · apply Finset.filter_congr
      intro x _
      simp [hk]
    · intro x hx
      rw [contrib_anti, neg_neg]
  rw [h1, h2]
  have hsplit : (Finset.range n).erase k =
      ((Finset.range n).filter (fun j => j < k)) ∪
        ((Finset.range n).filter (fun i => k < i)) := by
    ext x
    simp only [Finset.mem_erase, Finset.mem_range, Finset.mem_union, Finset.mem_filter]
    omega
  rw [hsplit, Finset.sum_union]
  · congr 1
    have : (Finset.range n).filter (fun j => j < k) = Finset.range k := by
      ext x
      simp only [Finset.mem_filter, Finset.mem_range]
      omega
    rw [this]
  · rw [Finset.disjoint_filter]
    intro x _ hx
    omega

theorem bodyIntegrate_vel (mass : ℕ → ℝ) (dt : ℝ) (F : ℕ → ℕ → ℝ) (i : ℕ)
    (s : SimState) (k : ℕ) :
    (bodyIntegrate mass dt F i s).vel k =
      if k = 3 * i then s.vel k + F 0 i / mass i * dt
      else if k = 3 * i + 1 then s.vel k + F 1 i / mass i * dt
      else if k = 3 * i + 2 then s.vel k + F 2 i / mass i * dt
      else s.vel k := by
  unfold bodyIntegrate
  by_cases h0 : k = 3 * i
  · subst h0
    rw [if_pos rfl]
    dsimp only
    rw [upd_ne _ _ _ (show 3 * i ≠ 3 * i + 2 by omega),
      upd_ne _ _ _ (show 3 * i ≠ 3 * i + 1 by omega), upd_self]
  · rw [if_neg h0]
    by_cases h1 : k = 3 * i + 1
    · subst h1
      rw [if_pos rfl]
      dsimp only
      rw [upd_ne _ _ _ (show 3 * i + 1 ≠ 3 * i + 2 by omega), upd_self,
        upd_ne _ _ _ (show 3 * i + 1 ≠ 3 * i by omega)]
    · rw [if_neg h1]
      by_cases h2 : k = 3 * i + 2
      · subst h2
        rw [if_pos rfl]
        dsimp only
        rw [upd_self, upd_ne _ _ _ (show 3 * i + 2 ≠ 3 * i + 1 by omega),
          upd_ne _ _ _ (show 3 * i + 2 ≠ 3 * i by omega)]
      · rw [if_neg h2]
        dsimp only
        rw [upd_ne _ _ _ h2, upd_ne _ _ _ h1, upd_ne _ _ _ h0]

theorem bodyIntegrate_pos (mass : ℕ → ℝ) (dt : ℝ) (F : ℕ → ℕ → ℝ) (i : ℕ)
    (s : SimState) (k : ℕ) :
    (bodyIntegrate mass dt F i s).pos k =
      if k = 3 * i then s.pos k + (s.vel (3 * i) + F 0 i / mass i * dt) * dt
      else if k = 3 * i + 1 then s.pos k + (s.vel (3 * i + 1) + F 1 i / mass i * dt) * dt
      else if k = 3 * i + 2 then s.pos k + (s.vel (3 * i + 2) + F 2 i / mass i * dt) * dt
      else s.pos k := by
  have hv0 : (bodyIntegrate mass dt F i s).vel (3 * i) =
      s.vel (3 * i) + F 0 i / mass i * dt := by
    rw [bodyIntegrate_vel, if_pos rfl]
  have hv1 : (bodyIntegrate mass dt F i s).vel (3 * i + 1) =
      s.vel (3 * i + 1) + F 1 i / mass i * dt := by
    rw [bodyIntegrate_vel, if_neg (show 3 * i + 1 ≠ 3 * i by omega), if_pos rfl]
  have hv2 : (bodyIntegrate mass dt F i s).vel (3 * i + 2) =
      s.vel (3 * i + 2) + F 2 i / mass i * dt := by
    rw [bodyIntegrate_vel, if_neg (show 3 * i + 2 ≠ 3 * i by omega),
      if_neg (show 3 * i + 2 ≠ 3 * i + 1 by omega), if_pos rfl]
  revert hv0 hv1 hv2
  unfold bodyIntegrate
  dsimp only
  intro hv0 hv1 hv2
  by_cases h0 : k = 3 * i
  · subst h0
    rw [if_pos rfl]
    rw [upd_ne _ _ _ (show 3 * i ≠ 3 * i + 2 by omega),
      upd_ne _ _ _ (show 3 * i ≠ 3 * i + 1 by omega), upd_self, hv0]
  · rw [if_neg h0]
    by_cases h1 : k = 3 * i + 1
    · subst h1
      rw [if_pos rfl]
      rw [upd_ne _ _ _ (show 3 * i + 1 ≠ 3 * i + 2 by omega), upd_self,
        upd_ne _ _ _ (show 3 * i + 1 ≠ 3 * i by omega), hv1]
    · rw [if_neg h1]
      by_cases h2 : k = 3 * i + 2
      · subst h2
        rw [if_pos rfl]
        rw [upd_self, upd_ne _ _ _ (show 3 * i + 2 ≠ 3 * i + 1 by omega),
          upd_ne _ _ _ (show 3 * i + 2 ≠ 3 * i by omega), hv2]
      · rw [if_neg h2]
        rw [upd_ne _ _ _ h2, upd_ne _ _ _ h1, upd_ne _ _ _ h0]

theorem integPhase_eval (mass : ℕ → ℝ) (dt : ℝ) (F : ℕ → ℕ → ℝ) (n : ℕ)
    (s : SimState) (k : ℕ) :
    (integPhase mass dt F n s).vel k =
        (if k / 3 < n then s.vel k + F (k % 3) (k / 3) / mass (k / 3) * dt else s.vel k) ∧
      (integPhase mass dt F n s).pos k =
        (if k / 3 < n then
          s.pos k + (s.vel k + F (k % 3) (k / 3) / mass (k / 3) * dt) * dt
        else s.pos k) := by
  induction n with
  | zero =>
    unfold integPhase
    simp only [List.range_zero, List.foldl_nil]
    constructor <;> rw [if_neg (by omega)]
  | succ m ih =>
    have hstep : integPhase mass dt F (m + 1) s =
        bodyIntegrate mass dt F m (integPhase mass dt F m s) := by
      unfold integPhase
      rw [List.range_succ, List.foldl_append, List.foldl_cons, List.foldl_nil]
    rw [hstep]
    obtain ⟨q, r, hr3, rfl⟩ : ∃ q r, r < 3 ∧ k = 3 * q + r :=
      ⟨k / 3, k % 3, by omega, by omega⟩
    have hdiv : (3 * q + r) / 3 = q := by omega
    have hmod : (3 * q + r) % 3 = r := by omega
    rw [hdiv, hmod] at ih ⊢
    rcases Nat.lt_trichotomy q m with hq | hq | hq
    · have hne0 : 3 * q + r ≠ 3 * m := by omega
      have hne1 : 3 * q + r ≠ 3 * m + 1 := by omega
      have hne2 : 3 * q + r ≠ 3 * m + 2 := by omega
      rw [bodyIntegrate_vel, bodyIntegrate_pos, if_neg hne0, if_neg hne0, if_neg hne1,
        if_neg hne1, if_neg hne2, if_neg hne2, ih.1, ih.2]
      rw [if_pos hq, if_pos hq, if_pos (show q < m + 1 by omega),
        if_pos (show q < m + 1 by omega)]
      exact ⟨rfl, rfl⟩
    · subst hq
      have hveq : (integPhase mass dt F q s).vel (3 * q + r) = s.vel (3 * q + r) := by
        rw [ih.1, if_neg (by omega)]
      have hpeq : (integPhase mass dt F q s).pos (3 * q + r) = s.pos (3 * q + r) := by
        rw [ih.2, if_neg (by omega)]
      rw [bodyIntegrate_vel, bodyIntegrate_pos]
      interval_cases r
      · rw [if_pos (by omega : 3 * q + 0 = 3 * q), if_pos (by omega : 3 * q + 0 = 3 * q)]
        rw [show 3 * q + 0 = 3 * q by omega] at hveq hpeq ⊢
        rw [hveq, hpeq]
        constructor <;> rw [if_pos (show q < q + 1 by omega)]
      · rw [if_neg (by omega : ¬(3 * q + 1 = 3 * q)), if_pos rfl,
          if_neg (by omega : ¬(3 * q + 1 = 3 * q)), if_pos rfl]
        rw [hveq, hpeq]
        constructor <;> rw [if_pos (show q < q + 1 by omega)]
      · rw [if_neg (by omega : ¬(3 * q + 2 = 3 * q)),
          if_neg (by omega : ¬(3 * q + 2 = 3 * q + 1)), if_pos rfl,
          if_neg (by omega : ¬(3 * q + 2 = 3 * q)),
          if_neg (by omega : ¬(3 * q + 2 = 3 * q + 1)), if_pos rfl]
        rw [hveq, hpeq]
        constructor <;> rw [if_pos (show q < q + 1 by omega)]
    · have hne0 : 3 * q + r ≠ 3 * m := by omega
      have hne1 : 3 * q + r ≠ 3 * m + 1 := by omega
      have hne2 : 3 * q + r ≠ 3 * m + 2 := by omega
      rw [bodyIntegrate_vel, bodyIntegrate_pos, if_neg hne0, if_neg hne0, if_neg hne1,
        if_neg hne1, if_neg hne2, if_neg hne2, ih.1, ih.2]
      rw [if_neg (by omega), if_neg (by omega), if_neg (by omega), if_neg (by omega)]
      exact ⟨rfl, rfl⟩

theorem simState_eq (a b : SimState) (hp : ∀ k, a.pos k = b.pos k)
    (hv : ∀ k, a.vel k = b.vel k) : a = b := by
  cases a
  cases b
  simp only [SimState.mk.injEq]
  exact ⟨funext hp, funext hv⟩

/-- The single-thread nbody-p3.c step coincides with the specification's
semi-implicit Euler step on exact start-of-step net forces. -/
theorem p3Step_eq_specStep (mass : ℕ → ℝ) (dt : ℝ) (n : ℕ) (s : SimState) :
    p3Step mass dt n s = specStep mass dt n s := by
  apply simState_eq
  · intro k
    have h := (integPhase_eval mass dt (fun c i => forcePhase mass s.pos n c i) n s k).2
    unfold p3Step
    rw [h]
    unfold specStep
    dsimp only
    by_cases hk : k / 3 < n
    · rw [if_pos hk, if_pos hk, if_pos hk,
        forcePhase_eq_netForce mass s.pos n (k % 3) (k / 3) hk]
    · rw [if_neg hk, if_neg hk]
  · intro k
    have h := (integPhase_eval mass dt (fun c i => forcePhase mass s.pos n c i) n s k).1
    unfold p3Step
    rw [h]
    unfold specStep
    dsimp only
    by_cases hk : k / 3 < n
    · rw [if_pos hk, if_pos hk,
        forcePhase_eq_netForce mass s.pos n (k % 3) (k / 3) hk]
    · rw [if_neg hk, if_neg hk]

theorem contrib_coeff_pos (mass pos : ℕ → ℝ) (i j : ℕ) (h1 : 0 < mass i)
    (h2 : 0 < mass j) :
    0 < gravitation (mass i) (mass j) (bodyPtr pos i) (bodyPtr pos j)
          (euclidean_distance_sans_sqrt (bodyPtr pos i) (bodyPtr pos j)) /
        Real.sqrt (euclidean_distance_sans_sqrt (bodyPtr pos i) (bodyPtr pos j)) := by
  apply div_pos
  · unfold gravitation
    exact mul_pos G_pos (div_pos (mul_pos h1 h2) (euclid_pos _ _))
  · exact Real.sqrt_pos.mpr (euclid_pos _ _)

theorem contrib_pos (mass pos : ℕ → ℝ) (c i j : ℕ) (h1 : 0 < mass i) (h2 : 0 < mass j)
    (hd : pos (3 * i + c) < pos (3 * j + c)) : 0 < contrib mass pos c i j := by
  unfold contrib
  dsimp only
  exact mul_pos (contrib_coeff_pos mass pos i j h1 h2) (by linarith)

theorem contrib_neg (mass pos : ℕ → ℝ) (c i j : ℕ) (h1 : 0 < mass i) (h2 : 0 < mass j)
    (hd : pos (3 * j + c) < pos (3 * i + c)) : contrib mass pos c i j < 0 := by
  unfold contrib
  dsimp only
  exact mul_neg_of_pos_of_neg (contrib_coeff_pos mass pos i j h1 h2) (by linarith)

theorem fpl_single_zero (mass pos : ℕ → ℝ) (n c k : ℕ) :
    forcePhaseList mass pos n c [0] k = 0 := by
  rw [forcePhaseList_eval]
  simp [iterDelta]

theorem fpl_single_one_at_one (mass pos : ℕ → ℝ) (c : ℕ) :
    forcePhaseList mass pos 2 c [1] 1 = contrib mass pos c 1 0 := by
  rw [forcePhaseList_eval]
  simp [iterDelta, Finset.sum_range_one]

theorem fpl_single_one_at_zero (mass pos : ℕ → ℝ) (c : ℕ) :
    forcePhaseList mass pos 2 c [1] 0 = -contrib mass pos c 1 0 := by
  rw [forcePhaseList_eval]
  simp [iterDelta]

theorem netForce_two_one (mass pos : ℕ → ℝ) (c : ℕ) :
    netForce mass pos 2 c 1 = contrib mass pos c 1 0 := by
  unfold netForce
  rw [show (Finset.range 2).erase 1 = {0} by decide, Finset.sum_singleton]

theorem netForce_two_zero (mass pos : ℕ → ℝ) (c : ℕ) :
    netForce mass pos 2 c 0 = contrib mass pos c 0 1 := by
  unfold netForce
  rw [show (Finset.range 2).erase 0 = {1} by decide, Finset.sum_singleton]

theorem sBodyForce_two_one (mass pos : ℕ → ℝ) (c : ℕ) :
    sBodyForce mass pos 2 c 1 = contrib mass pos c 1 0 := by
  unfold sBodyForce
  rw [show List.range 2 = [0, 1] from rfl]
  norm_num

theorem sBodyForce_two_zero (mass pos : ℕ → ℝ) (c : ℕ) :
    sBodyForce mass pos 2 c 0 = contrib mass pos c 0 1 := by
  unfold sBodyForce
  rw [show List.range 2 = [0, 1] from rfl]
  norm_num

theorem usedForce_B_body1 : usedForce cMass cPosB 2 schedB tauB 0 1 = 0 := by
  unfold usedForce threadForce
  rw [show tauB 1 = 1 from rfl, show threadIters schedB 2 1 = [0] by decide]
  exact fpl_single_zero cMass cPosB 2 0 1

theorem usedForce_B_body0 :
    usedForce cMass cPosB 2 schedB tauB 0 0 = -contrib cMass cPosB 0 1 0 := by
  unfold usedForce threadForce
  rw [show tauB 0 = 0 from rfl, show threadIters schedB 2 0 = [1] by decide]
  exact fpl_single_one_at_zero cMass cPosB 0

theorem contribB_neg : contrib cMass cPosB 0 1 0 < 0 := by
  apply contrib_neg
  · norm_num [cMass]
  · norm_num [cMass]
  · norm_num [cPosB]

theorem savePosition_read {α : Type} (out p : ℕ → α) (r n i c : ℕ) (hi : i < n)
    (hc : c < 3) :
    savePosition out p r n (r * 3 * n + (3 * i + c)) = p (3 * i + c) := by
  unfold savePosition
  rw [savePosAux_eval]
  obtain ⟨b, hb⟩ : ∃ b, r * 3 * n = b := ⟨_, rfl⟩
  rw [hb]
  have hcond : b ≤ b + (3 * i + c) ∧ b + (3 * i + c) < b + 3 * n := by omega
  rw [if_pos hcond]
  congr 1
  omega

theorem savePosition_frame {α : Type} (out p : ℕ → α) (r n idx : ℕ)
    (h : idx < r * 3 * n ∨ r * 3 * n + 3 * n ≤ idx) :
    savePosition out p r n idx = out idx := by
  unfold savePosition
  rw [savePosAux_eval]
  obtain ⟨b, hb⟩ : ∃ b, r * 3 * n = b := ⟨_, rfl⟩
  rw [hb] at h ⊢
  have hcond : ¬(b ≤ idx ∧ idx < b + 3 * n) := by omega
  rw [if_neg hcond]

theorem netForce_one_zero (mass pos : ℕ → ℝ) (c : ℕ) : netForce mass pos 1 c 0 = 0 := by
  unfold netForce
  rw [show (Finset.range 1).erase 0 = ∅ by decide, Finset.sum_empty]

theorem stepAndRecord_no_save (mass : ℕ → ℝ) (dt : ℝ) (n os : ℕ) (s : SimState)
    (b : ℕ → ℝ) (t : ℕ) (h : t % os ≠ 0) :
    stepAndRecord mass dt n os (s, b) t = (p3Step mass dt n s, b) := by
  unfold stepAndRecord
  dsimp only
  rw [if_neg h]

theorem stepAndRecord_save (mass : ℕ → ℝ) (dt : ℝ) (n os : ℕ) (s : SimState)
    (b : ℕ → ℝ) (t : ℕ) (h : t % os = 0) :
    stepAndRecord mass dt n os (s, b) t =
      (p3Step mass dt n s, savePosition b (p3Step mass dt n s).pos (t / os) n) := by
  unfold stepAndRecord
  dsimp only
  rw [if_pos h]

theorem contrib_eq_softened (mass pos : ℕ → ℝ) (c i j : ℕ) :
    contrib mass pos c i j =
      G * (mass i * mass j) / (distSq (bodyPtr pos i) (bodyPtr pos j) + SOFTENING) *
        ((pos (3 * j + c) - pos (3 * i + c)) /
          Real.sqrt (distSq (bodyPtr pos i) (bodyPtr pos j) + SOFTENING)) := by
  unfold contrib gravitation
  dsimp only
  have hd : euclidean_distance_sans_sqrt (bodyPtr pos i) (bodyPtr pos j) =
      distSq (bodyPtr pos i) (bodyPtr pos j) + SOFTENING := by
    unfold euclidean_distance_sans_sqrt distSq
    ring
  rw [hd]
  ring

theorem finalOutputs_eq_ceil (ns os : ℕ) (hos : 1 ≤ os) :
    (finalOutputs ns os : ℤ) = ⌈(ns : ℚ) / (os : ℚ)⌉ := by
  unfold finalOutputs
  obtain ⟨q, hq⟩ : ∃ q, (ns + os - 1) / os = q := ⟨_, rfl⟩
  rw [hq]
  have hdm := Nat.div_add_mod (ns + os - 1) os
  rw [hq] at hdm
  obtain ⟨X, hX⟩ : ∃ X, os * q = X := ⟨_, rfl⟩
  rw [hX] at hdm
  have hm : (ns + os - 1) % os < os := Nat.mod_lt _ (by omega)
  have hX2 : q * os = X := by rw [Nat.mul_comm]; exact hX
  have hn1 : q * os < ns + os := by rw [hX2]; omega
  have hn2 : ns ≤ q * os := by rw [hX2]; omega
  have hc1 : (q : ℚ) * os < (ns : ℚ) + os := by exact_mod_cast hn1
  have hc2 : (ns : ℚ) ≤ (q : ℚ) * os := by exact_mod_cast hn2
  have hosq : (0 : ℚ) < (os : ℚ) := by exact_mod_cast (by omega : 0 < os)
  symm
  rw [Int.ceil_eq_iff]
  constructor
  · rw [lt_div_iff₀ hosq]
    push_cast
    have expand : ((q : ℚ) - 1) * os = q * os - os := by ring
    rw [expand]
    linarith
  · rw [div_le_iff₀ hosq]
    push_cast
    exact hc2

/-! ## Claim theorems -/

/-- C1: the claim says that after the force-phase barrier the force read for
every body equals the exact pairwise sum independent of thread count and
schedule.  In nbody-p3.c the accumulators `fx/fy/fz` are thread-private and
never reduced, so under a legal two-thread schedule (outer iteration 1 on
thread 0, integration of body 1 on thread 1) the force actually read for
body 1 is 0 even though the exact pairwise sum is nonzero: the code
contradicts the spec's contract. -/
theorem c1_private_force_not_reduced :
    usedForce cMass cPosB 2 schedB tauB 0 1 = 0 ∧ netForce cMass cPosB 2 0 1 ≠ 0 :=
  ⟨usedForce_B_body1, by rw [netForce_two_one]; exact ne_of_lt contribB_neg⟩

/-- C7: the claim asserts Newton's-third-law pairing makes the total momentum
invariant across a step in exact arithmetic, independent of thread count.
Because the thread-private force accumulators of nbody-p3.c are never
reduced, under a legal two-thread schedule body 0 is integrated with the full
pair force while body 1 is integrated with force 0, and the total x-momentum
of the two-body system changes: the code contradicts the spec's contract. -/
theorem c7_momentum_not_conserved :
    totMomentum cMass (parStep cMass 1 2 schedB tauB cStateB).vel 2 0 ≠
      totMomentum cMass cStateB.vel 2 0 := by
  have hv0 : (parStep cMass 1 2 schedB tauB cStateB).vel 0 =
      cStateB.vel 0 + usedForce cMass cPosB 2 schedB tauB 0 0 / cMass 0 * 1 := by
    unfold parStep
    rw [(integPhase_eval cMass 1 _ 2 cStateB 0).1]
    rw [if_pos (show 0 / 3 < 2 by norm_num)]
    rfl
  have hv3 : (parStep cMass 1 2 schedB tauB cStateB).vel 3 =
      cStateB.vel 3 + usedForce cMass cPosB 2 schedB tauB 0 1 / cMass 1 * 1 := by
    unfold parStep
    rw [(integPhase_eval cMass 1 _ 2 cStateB 3).1]
    rw [if_pos (show 3 / 3 < 2 by norm_num)]
    rfl
  have hL : totMomentum cMass (parStep cMass 1 2 schedB tauB cStateB).vel 2 0 =
      -contrib cMass cPosB 0 1 0 := by
    unfold totMomentum
    rw [Finset.sum_range_succ, Finset.sum_range_one]
    rw [show 3 * 0 + 0 = 0 by norm_num, show 3 * 1 + 0 = 3 by norm_num, hv0, hv3,
      usedForce_B_body0, usedForce_B_body1]
    show cMass 0 * (cStateB.vel 0 + -contrib cMass cPosB 0 1 0 / cMass 0 * 1) +
        cMass 1 * (cStateB.vel 3 + 0 / cMass 1 * 1) = -contrib cMass cPosB 0 1 0
    norm_num [cMass, cStateB]
  have hR : totMomentum cMass cStateB.vel 2 0 = 0 := by
    unfold totMomentum
    rw [Finset.sum_range_succ, Finset.sum_range_one]
    norm_num [cMass, cStateB]
  rw [hL, hR]
  exact ne_of_gt (neg_pos.mpr contribB_neg)

/-- C2 (amended): in nbody-p3.c every velocity update uses only forces
computed from start-of-step positions, no position or velocity is mutated
before the force phase completes, and position updates use the same-step
advanced velocity — i.e. the single-thread nbody-p3.c step is exactly the
specification's semi-implicit Euler step.  (nbody-s.c violates the claim;
see the counterexample.) -/
theorem c2_p3_step_is_semi_implicit_euler (mass : ℕ → ℝ) (dt : ℝ) (n : ℕ)
    (s : SimState) : p3Step mass dt n s = specStep mass dt n s :=
  p3Step_eq_specStep mass dt n s

/-- C2 counterexample: nbody-s.c integrates body 0 before computing body 1's
force, so with body 0 initially at (1,0,0) moving at (-10,0,0) and body 1 at
rest at the origin, body 1's new x-velocity is negative (body 0 has already
moved past it) whereas the start-of-step force of the claim would make it
positive; the nbody-s.c step is not the claimed semi-implicit Euler step. -/
theorem c2_counterexample :
    (sStep cMass 1 2 cStateA).vel 3 < 0 ∧ 0 < (specStep cMass 1 2 cStateA).vel 3 ∧
      sStep cMass 1 2 cStateA ≠ specStep cMass 1 2 cStateA := by
  have hAmass : ∀ i : ℕ, 0 < cMass i := fun i => by norm_num [cMass]
  -- the specification-side step gives body 1 a positive x-velocity
  have hspos : 0 < contrib cMass cPosA 0 1 0 := by
    apply contrib_pos
    · exact hAmass 1
    · exact hAmass 0
    · norm_num [cPosA]
  have hspec : (specStep cMass 1 2 cStateA).vel 3 = contrib cMass cPosA 0 1 0 := by
    unfold specStep
    dsimp only
    rw [if_pos (show 3 / 3 < 2 by norm_num), show (3 : ℕ) / 3 = 1 from rfl,
      show (3 : ℕ) % 3 = 0 from rfl]
    show cStateA.vel 3 + netForce cMass cStateA.pos 2 0 1 / cMass 1 * 1 = _
    rw [show cStateA.pos = cPosA from rfl, netForce_two_one]
    norm_num [cStateA, cVelA, cMass]
  -- the nbody-s.c step: body 0 is integrated first
  have hsstep : sStep cMass 1 2 cStateA =
      bodyIntegrate cMass 1
        (fun c k => sBodyForce cMass
          (bodyIntegrate cMass 1 (fun c k => sBodyForce cMass cStateA.pos 2 c k) 0
            cStateA).pos 2 c k) 1
        (bodyIntegrate cMass 1 (fun c k => sBodyForce cMass cStateA.pos 2 c k) 0
          cStateA) := by
    unfold sStep
    rw [show List.range 2 = [0, 1] from rfl]
    rfl
  set s1 := bodyIntegrate cMass 1 (fun c k => sBodyForce cMass cStateA.pos 2 c k) 0
    cStateA with hs1
  -- body 1's slots are untouched by body 0's integration
  have h1p3 : s1.pos 3 = 0 := by
    rw [hs1, bodyIntegrate_pos, if_neg (by norm_num), if_neg (by norm_num),
      if_neg (by norm_num)]
    norm_num [cStateA, cPosA]
  have h1v3 : s1.vel 3 = 0 := by
    rw [hs1, bodyIntegrate_vel, if_neg (by norm_num), if_neg (by norm_num),
      if_neg (by norm_num)]
    norm_num [cStateA, cVelA]
  -- body 0 has moved to x = -9 - A < 0 inside the same step
  have hF00 : sBodyForce cMass cStateA.pos 2 0 0 = contrib cMass cPosA 0 0 1 := by
    rw [show cStateA.pos = cPosA from rfl]
    exact sBodyForce_two_zero cMass cPosA 0
  have hF00neg : contrib cMass cPosA 0 0 1 < 0 := by
    apply contrib_neg
    · exact hAmass 0
    · exact hAmass 1
    · norm_num [cPosA]
  have h1p0 : s1.pos 0 =
      cPosA 0 + (cVelA 0 + sBodyForce cMass cStateA.pos 2 0 0 / cMass 0 * 1) * 1 := by
    rw [hs1, bodyIntegrate_pos, if_pos (show (0 : ℕ) = 3 * 0 by norm_num)]
    show cStateA.pos 0 + (cStateA.vel (3 * 0) + _ / cMass 0 * 1) * 1 = _
    rw [show (3 * 0 : ℕ) = 0 by norm_num]
    rfl
  have h1p0neg : s1.pos 0 < 0 := by
    rw [h1p0, hF00]
    have h9 : contrib cMass cPosA 0 0 1 / cMass 0 * 1 = contrib cMass cPosA 0 0 1 := by
      norm_num [cMass]
    rw [h9]
    norm_num [cPosA, cVelA]
    linarith
  -- hence body 1's force, computed AFTER body 0 moved, points in -x
  have hCTneg : contrib cMass s1.pos 0 1 0 < 0 := by
    apply contrib_neg
    · exact hAmass 1
    · exact hAmass 0
    · rw [show (3 * 0 + 0 : ℕ) = 0 by norm_num, show (3 * 1 + 0 : ℕ) = 3 by norm_num,
        h1p3]
      exact h1p0neg
  have hvel3 : (sStep cMass 1 2 cStateA).vel 3 = contrib cMass s1.pos 0 1 0 := by
    rw [hsstep, bodyIntegrate_vel, if_pos (show (3 : ℕ) = 3 * 1 by norm_num)]
    show s1.vel 3 + sBodyForce cMass s1.pos 2 0 1 / cMass 1 * 1 = _
    rw [h1v3, sBodyForce_two_one]
    norm_num [cMass]
  refine ⟨by rw [hvel3]; exact hCTneg, by rw [hspec]; exact hspos, ?_⟩
  intro heq
  have h3 := congrArg (fun st => st.vel 3) heq
  dsimp only at h3
  rw [hvel3, hspec] at h3
  linarith

/-- C3: the output trajectory buffer is row-major with row stride `3n`
(`save_position`, 3n-stride variant, designated the intended behavior by
spec §9): writing row `r` stores body `i`'s coordinate `c` at flat index
`r*3n + 3i + c`, leaves every index outside `[r*3n, r*3n + 3n)` unchanged,
and in particular never modifies any other row `r2 ≠ r`. -/
theorem c3_row_stride {α : Type} (out p : ℕ → α) (r n i c : ℕ) (hi : i < n)
    (hc : c < 3) :
    savePosition out p r n (r * 3 * n + (3 * i + c)) = p (3 * i + c) ∧
      (∀ idx, idx < r * 3 * n ∨ r * 3 * n + 3 * n ≤ idx →
        savePosition out p r n idx = out idx) ∧
      ∀ r2, r2 ≠ r → savePosition out p r n (r2 * 3 * n + (3 * i + c)) =
        out (r2 * 3 * n + (3 * i + c)) := by
  refine ⟨savePosition_read out p r n i c hi hc,
    fun idx h => savePosition_frame out p r n idx h, fun r2 h2 => ?_⟩
  apply savePosition_frame
  rcases Nat.lt_or_ge r2 r with hlt | hge
  · left
    calc r2 * 3 * n + (3 * i + c) < r2 * 3 * n + 3 * n := by omega
    _ = (r2 * 3 + 3) * n := by rw [Nat.add_mul]
    _ ≤ r * 3 * n := Nat.mul_le_mul_right n (by omega)
  · right
    have hgt : r < r2 := by omega
    calc r * 3 * n + 3 * n = (r * 3 + 3) * n := by rw [Nat.add_mul]
    _ ≤ r2 * 3 * n := Nat.mul_le_mul_right n (by omega)
    _ ≤ r2 * 3 * n + (3 * i + c) := Nat.le_add_right _ _

/-- C3 witness: concrete instance with two bodies, writing row 1 of a zeroed
ℕ-buffer. -/
theorem c3_row_stride_witness :
    ((1 : ℕ) < 2 ∧ (2 : ℕ) < 3) ∧
      savePosition (fun _ => (0 : ℕ)) (fun k => k + 10) 1 2 (1 * 3 * 2 + (3 * 1 + 2)) =
        (fun k => k + 10) (3 * 1 + 2) ∧
      savePosition (fun _ => (0 : ℕ)) (fun k => k + 10) 1 2 0 = (fun _ => (0 : ℕ)) 0 ∧
      savePosition (fun _ => (0 : ℕ)) (fun k => k + 10) 1 2 (0 * 3 * 2 + (3 * 1 + 2)) =
        (fun _ => (0 : ℕ)) (0 * 3 * 2 + (3 * 1 + 2)) :=
  ⟨⟨by decide, by decide⟩,
    (@c3_row_stride ℕ (fun _ => 0) (fun k => k + 10) 1 2 1 2 (by decide) (by decide)).1,
    (@c3_row_stride ℕ (fun _ => 0) (fun k => k + 10) 1 2 1 2 (by decide) (by decide)).2.1
      0 (Or.inl (by decide)),
    (@c3_row_stride ℕ (fun _ => 0) (fun k => k + 10) 1 2 1 2 (by decide) (by decide)).2.2
      0 (by decide)⟩

/-- C4 (amended): when `num_steps mod output_steps ≠ 0` the driver performs
the final write, so the last output row (`num_outputs - 1`) holds the
end-of-loop position state.  When `num_steps mod output_steps = 0` no final
write happens and the last row keeps the snapshot recorded at step
`num_steps - output_steps`, which need not equal the end state (see the
counterexample). -/
theorem c4_last_row_final_state (mass : ℕ → ℝ) (dt : ℝ)
    (n numSteps outputSteps numOutputs : ℕ) (s0 : SimState) (raw : ℕ → ℝ)
    (h : numSteps % outputSteps ≠ 0) (i c : ℕ) (hi : i < n) (hc : c < 3) :
    (runSim mass dt n numSteps outputSteps numOutputs s0 raw).2
        ((numOutputs - 1) * 3 * n + (3 * i + c)) =
      (runSim mass dt n numSteps outputSteps numOutputs s0 raw).1.pos (3 * i + c) := by
  unfold runSim
  dsimp only
  rw [if_pos h]
  exact savePosition_read _ _ (numOutputs - 1) n i c hi hc

/-- C4 witness: a three-step run with `output_steps = 2` (3 mod 2 ≠ 0). -/
theorem c4_last_row_final_state_witness :
    (3 : ℕ) % 2 ≠ 0 ∧ (0 : ℕ) < 1 ∧ (0 : ℕ) < 3 ∧
      (runSim cMass 1 1 3 2 2 cStateC (fun _ => 0)).2 ((2 - 1) * 3 * 1 + (3 * 0 + 0)) =
        (runSim cMass 1 1 3 2 2 cStateC (fun _ => 0)).1.pos (3 * 0 + 0) :=
  ⟨by decide, by decide, by decide,
    c4_last_row_final_state cMass 1 1 3 2 2 cStateC (fun _ => 0) (by decide) 0 0
      (by decide) (by decide)⟩

/-- C4 counterexample: with one body at the origin moving at unit x-velocity,
`num_steps = 10`, `output_steps = 5`, `num_outputs = 2` (so
`num_steps mod output_steps = 0`), the last output row keeps the snapshot
taken after step 5 (x = 5) while the end-of-simulation position is x = 9:
the last row does not equal the true final state. -/
theorem c4_counterexample :
    (runSim cMass 1 1 10 5 2 cStateC (fun _ => 0)).2 ((2 - 1) * 3 * 1 + (3 * 0 + 0)) ≠
      (runSim cMass 1 1 10 5 2 cStateC (fun _ => 0)).1.pos (3 * 0 + 0) := by
  have hV : ∀ s : SimState, (p3Step cMass 1 1 s).vel 0 = s.vel 0 := by
    intro s
    rw [p3Step_eq_specStep]
    unfold specStep
    dsimp only
    rw [if_pos (show 0 / 3 < 1 by norm_num), show (0 : ℕ) % 3 = 0 from rfl,
      show (0 : ℕ) / 3 = 0 from rfl, netForce_one_zero]
    norm_num
  have hP : ∀ s : SimState, (p3Step cMass 1 1 s).pos 0 = s.pos 0 + s.vel 0 := by
    intro s
    rw [p3Step_eq_specStep]
    unfold specStep
    dsimp only
    rw [if_pos (show 0 / 3 < 1 by norm_num), if_pos (show 0 / 3 < 1 by norm_num),
      show (0 : ℕ) % 3 = 0 from rfl, show (0 : ℕ) / 3 = 0 from rfl, netForce_one_zero]
    norm_num
  have hread : ∀ out p : ℕ → ℝ, savePosition out p 1 1 3 = p 0 := by
    intro out p
    unfold savePosition
    rw [savePosAux_eval]
    norm_num
  unfold runSim
  dsimp only
  rw [if_neg (show ¬(10 % 5 ≠ 0) by norm_num)]
  rw [show List.range' 1 (10 - 1) = [1, 2, 3, 4, 5, 6, 7, 8, 9] by decide]
  rw [List.foldl_cons, stepAndRecord_no_save cMass 1 1 5 _ _ 1 (by norm_num)]
  rw [List.foldl_cons, stepAndRecord_no_save cMass 1 1 5 _ _ 2 (by norm_num)]
  rw [List.foldl_cons, stepAndRecord_no_save cMass 1 1 5 _ _ 3 (by norm_num)]
  rw [List.foldl_cons, stepAndRecord_no_save cMass 1 1 5 _ _ 4 (by norm_num)]
  rw [List.foldl_cons, stepAndRecord_save cMass 1 1 5 _ _ 5 (by norm_num)]
  rw [List.foldl_cons, stepAndRecord_no_save cMass 1 1 5 _ _ 6 (by norm_num)]
  rw [List.foldl_cons, stepAndRecord_no_save cMass 1 1 5 _ _ 7 (by norm_num)]
  rw [List.foldl_cons, stepAndRecord_no_save cMass 1 1 5 _ _ 8 (by norm_num)]
  rw [List.foldl_cons, stepAndRecord_no_save cMass 1 1 5 _ _ 9 (by norm_num)]
  rw [List.foldl_nil]
  dsimp only
  rw [show (5 : ℕ) / 5 = 1 from rfl,
    show (2 - 1) * 3 * 1 + (3 * 0 + 0) = 3 by norm_num,
    show (3 * 0 + 0 : ℕ) = 0 by norm_num]
  rw [hread]
  simp only [hP, hV]
  norm_num [cStateC]

/-- C5 counterexample: with `time_step = 1`, `total_time = 3` (so
`num_steps = 3`) and requested outputs-per-body 5, the claimed formula gives
`output_steps = max 1 (floor(3/5)) = 1`, but the code first resets
`num_outputs` to 1 and derives `output_steps = 3`. -/
theorem c5_counterexample :
    outputStepsOf (numStepsOf 1 3) (clampOutputs (numStepsOf 1 3) 5) ≠
      specOutputSteps (numStepsOf 1 3) 5 := by
  have h3 : numStepsOf 1 3 = 3 := by
    unfold numStepsOf
    norm_num
    rfl
  rw [h3]
  decide

/-- C5 (amended): `num_steps = round(total_time/time_step)` holds; when
`num_steps ≥` the requested count the code's `output_steps` is
`floor(num_steps/requested)` (which is ≥ 1 without clamping), but when
`num_steps <` requested the code resets the requested count to 1 and derives
`output_steps = num_steps` (not the claimed clamped value 1); the actual
`num_outputs = ceil(num_steps/output_steps)` always holds. -/
theorem c5_derived_params (ts tt : ℚ) (req : ℕ) (h1 : 0 < ts) (h2 : ts ≤ tt)
    (hreq : 1 ≤ req) :
    (numStepsOf ts tt : ℤ) = round (tt / ts) ∧
      (req ≤ numStepsOf ts tt →
        clampOutputs (numStepsOf ts tt) req = req ∧
          outputStepsOf (numStepsOf ts tt) (clampOutputs (numStepsOf ts tt) req) =
            numStepsOf ts tt / req) ∧
      (numStepsOf ts tt < req →
        clampOutputs (numStepsOf ts tt) req = 1 ∧
          outputStepsOf (numStepsOf ts tt) (clampOutputs (numStepsOf ts tt) req) =
            numStepsOf ts tt) ∧
      ∀ os : ℕ, 1 ≤ os →
        (finalOutputs (numStepsOf ts tt) os : ℤ) =
          ⌈(numStepsOf ts tt : ℚ) / (os : ℚ)⌉ := by
  refine ⟨?_, fun hge => ?_, fun hlt => ?_, fun os hos => finalOutputs_eq_ceil _ os hos⟩
  · unfold numStepsOf
    rw [round_eq]
    have hx : (1 : ℚ) ≤ tt / ts := (one_le_div h1).mpr h2
    have hf : (0 : ℤ) ≤ ⌊tt / ts + 1 / 2⌋ := Int.floor_nonneg.mpr (by linarith)
    omega
  · unfold clampOutputs outputStepsOf
    rw [if_neg (by omega)]
    exact ⟨rfl, rfl⟩
  · unfold clampOutputs outputStepsOf
    rw [if_pos hlt]
    exact ⟨rfl, Nat.div_one _⟩

/-- C5 witness: `time_step = 1`, `total_time = 10`, requested 3 outputs:
`num_steps = 10`, `output_steps = 3`, `num_outputs = ceil(10/3) = 4`. -/
theorem c5_derived_params_witness :
    (0 : ℚ) < 1 ∧ (1 : ℚ) ≤ 10 ∧ (1 : ℕ) ≤ 3 ∧
      (numStepsOf 1 10 : ℤ) = round ((10 : ℚ) / 1) ∧
      outputStepsOf (numStepsOf 1 10) (clampOutputs (numStepsOf 1 10) 3) =
        numStepsOf 1 10 / 3 ∧
      (finalOutputs (numStepsOf 1 10) 3 : ℤ) = ⌈(numStepsOf 1 10 : ℚ) / (3 : ℚ)⌉ :=
  ⟨by decide, by decide, by decide,
    (c5_derived_params 1 10 3 (by decide) (by decide) (by decide)).1,
    ((c5_derived_params 1 10 3 (by decide) (by decide) (by decide)).2.1
      (by unfold numStepsOf; norm_num)).2,
    (c5_derived_params 1 10 3 (by decide) (by decide) (by decide)).2.2.2 3 (by decide)⟩

/-- C6 (amended): the per-axis force contribution on body `i` due to `j`
equals the claimed magnitude `G*m_i*m_j/(dist² + ε)` times the vector
`(pos_j - pos_i) / sqrt(dist² + ε)` — the direction is normalized by the
softened distance `sqrt(dist² + ε)`, not by the true Euclidean distance
`dist` as the claim states. -/
theorem c6_force_formula (mass pos : ℕ → ℝ) (c i j : ℕ) :
    contrib mass pos c i j =
      G * (mass i * mass j) / (distSq (bodyPtr pos i) (bodyPtr pos j) + SOFTENING) *
        ((pos (3 * j + c) - pos (3 * i + c)) /
          Real.sqrt (distSq (bodyPtr pos i) (bodyPtr pos j) + SOFTENING)) :=
  contrib_eq_softened mass pos c i j

/-- C6 counterexample: two unit masses one unit apart on the x-axis.  The
claimed force (unit vector scaled by `1/dist = 1`) strictly exceeds the
computed force (scaled by `1/sqrt(1 + ε) < 1`), so the claimed formula does
not describe the code. -/
theorem c6_counterexample :
    contrib cMass cPosB 0 0 1 ≠ claimForceComp cMass cPosB 0 0 1 := by
  have hds : distSq (bodyPtr cPosB 0) (bodyPtr cPosB 1) = 1 := by
    unfold distSq bodyPtr
    norm_num [cPosB]
  have hsq : 1 < Real.sqrt (1 + SOFTENING) := by
    have h1 : (1 : ℝ) < 1 + SOFTENING := by norm_num [SOFTENING]
    calc (1 : ℝ) = Real.sqrt 1 := Real.sqrt_one.symm
    _ < Real.sqrt (1 + SOFTENING) := Real.sqrt_lt_sqrt (by norm_num) h1
  have hA : 0 < G * (cMass 0 * cMass 1) / (1 + SOFTENING) := by
    apply div_pos
    · exact mul_pos G_pos (by norm_num [cMass])
    · norm_num [SOFTENING]
  apply ne_of_lt
  rw [contrib_eq_softened, hds]
  unfold claimForceComp
  rw [hds, Real.sqrt_one]
  have hdelta : cPosB (3 * 1 + 0) - cPosB (3 * 0 + 0) = 1 := by norm_num [cPosB]
  rw [hdelta]
  have hstep : (1 : ℝ) / Real.sqrt (1 + SOFTENING) < 1 / 1 := by
    rw [div_lt_div_iff₀ (by linarith) one_pos]
    linarith
  calc G * (cMass 0 * cMass 1) / (1 + SOFTENING) * (1 / Real.sqrt (1 + SOFTENING))
      < G * (cMass 0 * cMass 1) / (1 + SOFTENING) * (1 / 1) := by
        exact mul_lt_mul_of_pos_left hstep hA
  _ = G * (cMass 0 * cMass 1) / (1 + SOFTENING) * (1 / 1) := rfl

/-- C8: for every pair of body positions, including coincident ones, the
softened squared distance is at least `ε > 0`, hence nonzero (no division by
zero in `gravitation` or in the `sqrt` divisor), and for coincident bodies
the force evaluates to the finite value `G*m1*m2/ε`. -/
theorem c8_softening_denominator (m1 m2 : ℝ) (p q : ℕ → ℝ) :
    0 < SOFTENING ∧ SOFTENING ≤ euclidean_distance_sans_sqrt p q ∧
      euclidean_distance_sans_sqrt p q ≠ 0 ∧
      0 < Real.sqrt (euclidean_distance_sans_sqrt p q) ∧
      ((∀ c, p c = q c) →
        gravitation m1 m2 p q (euclidean_distance_sans_sqrt p q) =
          G * (m1 * m2 / SOFTENING)) := by
  refine ⟨SOFTENING_pos, soft_le_euclid p q, ne_of_gt (euclid_pos p q),
    Real.sqrt_pos.mpr (euclid_pos p q), fun hc => ?_⟩
  unfold gravitation euclidean_distance_sans_sqrt
  rw [hc 0, hc 1, hc 2]
  simp

/-- C8 witness: two bodies at the same point (the origin) with unit masses. -/
theorem c8_softening_denominator_witness :
    0 < SOFTENING ∧
      SOFTENING ≤ euclidean_distance_sans_sqrt (fun _ => (0 : ℝ)) (fun _ => 0) ∧
      euclidean_distance_sans_sqrt (fun _ => (0 : ℝ)) (fun _ => 0) ≠ 0 ∧
      0 < Real.sqrt (euclidean_distance_sans_sqrt (fun _ => (0 : ℝ)) (fun _ => 0)) ∧
      gravitation 1 1 (fun _ => (0 : ℝ)) (fun _ => 0)
          (euclidean_distance_sans_sqrt (fun _ => (0 : ℝ)) (fun _ => 0)) =
        G * (1 * 1 / SOFTENING) := by
  obtain ⟨a, b, c, d, e⟩ := c8_softening_denominator 1 1 (fun _ => (0 : ℝ)) (fun _ => 0)
  exact ⟨a, b, c, d, e fun _ => rfl⟩

/-- C9: the claim says any non-positive outputs-per-body argument makes the
program exit 1 without computing.  nbody-p3.c stores `atoi(argv[3])` into a
`size_t`, so the argument `-3` wraps to `2^64 - 3`, passes the
`num_outputs <= 0` check, and the run proceeds to a successful exit 0
(the later `num_steps < num_outputs` clamp resets the count to 1): the code
contradicts its own error message "outputs-per-body must be positive". -/
theorem c9_negative_outputs_not_rejected :
    toSizeT (-3) = 2 ^ 64 - 3 ∧
      mainExit 6 1 10 (-3) 0 4 (some (2, 7)) true = 0 := by
  constructor
  · decide
  · decide

/-- C10: for validated arguments (`0 < time_step ≤ total_time`, requested
outputs ≥ 1) the derived `num_steps` is at least 1 and the clamp guarantees
`output_steps ≥ 1`, so the `t mod output_steps` and
`num_steps mod output_steps` expressions never divide by zero. -/
theorem c10_output_steps_positive (ts tt : ℚ) (req : ℕ) (h1 : 0 < ts) (h2 : ts ≤ tt)
    (hreq : 1 ≤ req) :
    1 ≤ numStepsOf ts tt ∧
      1 ≤ outputStepsOf (numStepsOf ts tt) (clampOutputs (numStepsOf ts tt) req) := by
  have hns : 1 ≤ numStepsOf ts tt := by
    unfold numStepsOf
    have hx : (1 : ℚ) ≤ tt / ts := (one_le_div h1).mpr h2
    have hf : (1 : ℤ) ≤ ⌊tt / ts + 1 / 2⌋ := Int.le_floor.mpr (by push_cast; linarith)
    omega
  refine ⟨hns, ?_⟩
  unfold outputStepsOf clampOutputs
  by_cases hcl : numStepsOf ts tt < req
  · rw [if_pos hcl, Nat.div_one]
    exact hns
  · rw [if_neg hcl]
    exact (Nat.one_le_div_iff (by omega)).mpr (by omega)

/-- C10 witness: `time_step = 1`, `total_time = 10`, requested 3 outputs. -/
theorem c10_output_steps_positive_witness :
    (0 : ℚ) < 1 ∧ (1 : ℚ) ≤ 10 ∧ (1 : ℕ) ≤ 3 ∧
      1 ≤ numStepsOf 1 10 ∧
      1 ≤ outputStepsOf (numStepsOf 1 10) (clampOutputs (numStepsOf 1 10) 3) :=
  ⟨by decide, by decide, by decide,
    (c10_output_steps_positive 1 10 3 (by decide) (by decide) (by decide)).1,
    (c10_output_steps_positive 1 10 3 (by decide) (by decide) (by decide)).2⟩

end NBody
